import Mathlib

/-!
Verification of the ainutrihealth label-scanning pipeline.

The development shallowly embeds the text-processing core of
`app/backend/app.py` (the `/predict` route: ingredient extraction,
tokenization, allergen matching and health scoring) and the best-of-N
OCR variant selection loop of `app/backend/test_ocr.py`.

Text is modelled as `List Char`.  Python `str.lower` is modelled
character-wise by `Char.toLower` (the texts involved are ASCII).
Pandas impact weights (Python floats) are modelled as exact rationals;
Python `int()` truncation toward zero is `pyTrunc`.
-/

namespace AinutriHealth

/-- Does `pat` occur as a contiguous block at the very start of `s`?
Used to model Python `str.find` position tests. -/
def matchesAt : List Char → List Char → Bool
  | [], _ => true
  | _ :: _, [] => false
  | p :: ps, c :: cs => p == c && matchesAt ps cs

/-- Index of the first occurrence of `pat` in `s`, if any.
Models Python `s.find(pat)` (with `none` for `-1`). -/
def findSub (pat : List Char) : List Char → Option Nat
  | [] => if matchesAt pat [] then some 0 else none
  | c :: rest =>
    if matchesAt pat (c :: rest) then some 0
    else (findSub pat rest).map (· + 1)

/-- Is `pat` a contiguous substring of `s`?  Models Python `pat in s`. -/
def containsSub (s pat : List Char) : Bool :=
  (findSub pat s).isSome

/-- Character-wise lower-casing, modelling Python `str.lower` on ASCII text. -/
def lowerCL (s : List Char) : List Char :=
  s.map Char.toLower

/-- The whitespace characters stripped by Python `str.strip()` (ASCII range). -/
def pyIsSpace (c : Char) : Bool :=
  c == ' ' || c == '\t' || c == '\n' || c == '\r' || c == '\x0b' || c == '\x0c'

/-- Python `str.strip()`: drop leading and trailing whitespace. -/
def stripCL (s : List Char) : List Char :=
  ((s.dropWhile pyIsSpace).reverse.dropWhile pyIsSpace).reverse

/-- First index in list order: iterate the patterns and return the find
position of the first pattern that occurs in `s`.  This models the
`for marker in [...]: idx = text.find(marker); if idx != -1: ...; break`
loops in `predict`. -/
def findFirstIdx (pats : List (List Char)) (s : List Char) : Option Nat :=
  match pats with
  | [] => none
  | p :: ps =>
    match findSub p s with
    | some i => some i
    | none => findFirstIdx ps s

/-- The marker phrases searched by `predict`, in the order the code lists
them: `["ingredients", "ingredients as served", "ingredient"]`. -/
def markers : List (List Char) :=
  ["ingredients".toList, "ingredients as served".toList, "ingredient".toList]

/-- The terminator phrases searched by `predict`, in the order the code
lists them: `["nutritional", "nutrition", "\n\n", "typical values"]`. -/
def stop_tokens : List (List Char) :=
  ["nutritional".toList, "nutrition".toList, ['\n', '\n'], "typical values".toList]

/-- Given a marker hit at offset `i` of the OCR text, the ingredients text
`predict` produces: the snippet from `i`, truncated at the find position of
the first terminator (in `stop_tokens` order) occurring in the lowered
snippet; falling back to the whole OCR text when the result is empty
(the `if not ingredients_text` guard). -/
def truncFrom (ocr : List Char) (i : Nat) : List Char :=
  let snippet := ocr.drop i
  let r :=
    match findFirstIdx stop_tokens (lowerCL snippet) with
    | none => snippet
    | some si => snippet.take si
  if r = [] then ocr else r

/-- The ingredient-extraction heuristic of `predict` (step 5 of the route):
lower-case the OCR text, find the first marker in `markers` order, cut the
snippet at the first terminator in `stop_tokens` order, and fall back to
the full OCR text when nothing was extracted. -/
def extractIngredients (ocr : List Char) : List Char :=
  let tl := lowerCL ocr
  match findFirstIdx markers tl with
  | none => ocr
  | some idx => truncFrom ocr idx

/-- The separator class of `re.split(r'[,\n;]+', ...)`. -/
def isTokSep (c : Char) : Bool :=
  c == ',' || c == '\n' || c == ';'

/-- State-machine embedding of `re.split` on runs of separators:
`inRun` records whether we are inside a separator run, `cur` is the
current piece reversed.  Boundary runs yield empty pieces, exactly as
`re.split` does. -/
def reSplitRuns (sep : Char → Bool) : List Char → Bool → List Char → List (List Char)
  | [], _, cur => [cur.reverse]
  | c :: rest, inRun, cur =>
    if sep c then
      if inRun then reSplitRuns sep rest true cur
      else cur.reverse :: reSplitRuns sep rest true []
    else reSplitRuns sep rest false (c :: cur)

/-- Python `re.split(pattern-of-runs, s)`. -/
def pySplitRuns (sep : Char → Bool) (l : List Char) : List (List Char) :=
  reSplitRuns sep l false []

/-- Tokenization in `predict`:
`[t.strip() for t in re.split(r'[,\n;]+', text) if t.strip()]`. -/
def tokensOf (text : List Char) : List (List Char) :=
  ((pySplitRuns isTokSep text).map stripCL).filter (fun t => t ≠ [])

/-- The built-in fallback allergen vocabulary of `predict`. -/
def sample_allergens : List (List Char) :=
  ["milk".toList, "egg".toList, "eggs".toList, "peanut".toList, "peanuts".toList,
   "soy".toList, "wheat".toList, "gluten".toList, "fish".toList, "shellfish".toList,
   "tree nut".toList, "almond".toList, "cashew".toList]

/-- The built-in undesirable-ingredient vocabulary of `predict`. -/
def bad_words : List (List Char) :=
  ["sugar".toList, "salt".toList, "sodium".toList, "hydrogenated".toList,
   "trans".toList, "palmitate".toList, "fat".toList, "fatty".toList,
   "oil".toList, "flavour".toList, "flavor".toList]

/-- Fallback allergen detection: for each token, every vocabulary term
contained in the lowered token is appended. -/
def fallbackAllergens (tokens : List (List Char)) : List (List Char) :=
  tokens.flatMap (fun t => sample_allergens.filter (fun a => containsSub (lowerCL t) a))

/-- Fallback penalty: 5 points for every (token, bad word) pair where the
bad word is contained in the lowered token. -/
def fallbackPenalty (tokens : List (List Char)) : Nat :=
  tokens.foldl
    (fun acc t => acc + 5 * (bad_words.filter (fun k => containsSub (lowerCL t) k)).length) 0

/-- Fallback health score: `max(0, 100 - penalty)`. -/
def fallbackHealth (tokens : List (List Char)) : ℤ :=
  max 0 (100 - (fallbackPenalty tokens : ℤ))

/-- One row of the reference table `ingredientsv1.csv`: the first-column
ingredient name and its `impact` value (ignored when the table has no
`impact` column). -/
structure RefRow where
  name : List Char
  impact : ℚ
deriving DecidableEq

/-- The reference table: its rows and whether it has an `impact` column. -/
structure RefTable where
  rows : List RefRow
  hasImpact : Bool
deriving DecidableEq

/-- Row match in `predict`: the lowered token occurs inside the lowered
first-column name (`df_ing['ingredient_lc'].str.contains(re.escape(tl))`). -/
def rowMatches (tl : List Char) (r : RefRow) : Bool :=
  containsSub (lowerCL r.name) tl

/-- Table-path allergen candidates: for each token, the (original-case)
names of all matching rows, in order. -/
def tableAllergens (tb : RefTable) (tokens : List (List Char)) : List (List Char) :=
  tokens.flatMap (fun t => ((tb.rows.filter (rowMatches (lowerCL t))).map RefRow.name))

/-- Table-path impact list: for each token, the impacts of all matching rows. -/
def tableImpacts (tb : RefTable) (tokens : List (List Char)) : List ℚ :=
  tokens.flatMap (fun t => ((tb.rows.filter (rowMatches (lowerCL t))).map RefRow.impact))

/-- Python `max` on two rationals, written as an executable conditional. -/
def ratMax (a b : ℚ) : ℚ :=
  if a ≤ b then b else a

/-- Impact-weighted score of `predict`: only when the table has an `impact`
column and at least one row matched, `max(0, 100 - sum(impacts))`. -/
def tableScore (tb : RefTable) (tokens : List (List Char)) : Option ℚ :=
  if tb.hasImpact then
    let imps := tableImpacts tb tokens
    if imps = [] then none else some (ratMax 0 (100 - imps.sum))
  else none

/-- Python `int()` on a rational: truncation toward zero. -/
def pyTrunc (q : ℚ) : ℤ :=
  if q < 0 then -⌊-q⌋ else ⌊q⌋

/-- The allergen/scoring stage of `predict` (step 6): table-path allergens
when the table is present and matched, else the fallback vocabulary scan;
impact-weighted health score when computed, else the fallback penalty
score; the final `int()` conversion applied to the score. -/
def allergenScore (tokens : List (List Char)) (table : Option RefTable) :
    List (List Char) × ℤ :=
  let fromTable :=
    match table with
    | none => ([] : List (List Char))
    | some tb => tableAllergens tb tokens
  let alg := if fromTable = [] then fallbackAllergens tokens else fromTable
  let hs : ℤ :=
    match table with
    | none => fallbackHealth tokens
    | some tb =>
      match tableScore tb tokens with
      | none => fallbackHealth tokens
      | some q => pyTrunc q
  (alg, hs)

/-- Python `sorted(set(xs))` on strings: deduplicate, then sort in the
lexicographic order on character lists. -/
def sortedDedupCL (l : List (List Char)) : List (List Char) :=
  List.insertionSort (· ≤ ·) l.dedup

/-- The success record built by `predict` (step 7). -/
structure PredictOut where
  ok : Bool
  ocr_text : List Char
  ingredients_text : List Char
  tokens : List (List Char)
  allergens : List (List Char)
  health_score : ℤ
deriving DecidableEq

/-- The text-processing core of the `/predict` route, from the OCR text and
the optional reference table to the response record. -/
def predictFromOcr (ocr : List Char) (table : Option RefTable) : PredictOut :=
  let ing := extractIngredients ocr
  let toks := tokensOf ing
  let r := allergenScore toks table
  { ok := true
    ocr_text := ocr
    ingredients_text := ing
    tokens := toks.take 200
    allergens := sortedDedupCL r.1
    health_score := r.2 }

/-! ### Claim C1 — fallback scoring on a concrete token list -/

/-- The token list of claim C1. -/
def c1_tokens : List (List Char) :=
  ["skim milk powder".toList, "sugar".toList, "salt".toList]

/-- C1 counterexample: with the reference table absent and tokens
`["skim milk powder", "sugar", "salt"]`, the health score is 90, not the
claimed `max(0, 100 - 15) = 85`: only "sugar" and "salt" match the
undesirable-ingredient vocabulary; "milk" is not in it, so only two
5-point penalties accrue. -/
theorem c1_score_is_not_85 :
    (allergenScore c1_tokens none).2 = 90 ∧ (allergenScore c1_tokens none).2 ≠ 85 := by
  decide

/-- C1 (amended): with the reference table absent and tokens
`["skim milk powder", "sugar", "salt"]`, the allergen list contains "milk"
and the health score is `max(0, 100 - 10) = 90` — two 5-point fallback
penalties, one each for "sugar" and "salt". -/
theorem c1_fallback_allergen_and_score :
    "milk".toList ∈ (allergenScore c1_tokens none).1 ∧
      (allergenScore c1_tokens none).2 = max 0 (100 - 10) := by
  decide

/-! ### Claim C2 — health score range -/

/-- The reference table of the C2 counterexample: one row whose impact
weight is negative. -/
def c2_table : RefTable :=
  { rows := [{ name := ['x'], impact := -50 }], hasImpact := true }

/-- C2 counterexample: with a reference table carrying a negative impact
weight, the health score of the matching token list exceeds 100
(`max(0, 100 - (-50)) = 150`), so it is not always in [0, 100]. -/
theorem c2_score_can_exceed_100 :
    (allergenScore [['x']] (some c2_table)).2 = 150 ∧
      ¬ (allergenScore [['x']] (some c2_table)).2 ≤ 100 := by
  have himps : tableImpacts c2_table [['x']] = [-50] := by decide
  have hq : ratMax 0 (100 - ([(-50 : ℚ)]).sum) = 150 := by
    rw [ratMax]
    norm_num
  have hts : tableScore c2_table [['x']] = some 150 := by
    rw [tableScore, himps]
    simp only [c2_table]
    rw [if_pos trivial, if_neg (by simp), hq]
  have hfloor : ⌊(150 : ℚ)⌋ = 150 := by decide
  have hval : (allergenScore [['x']] (some c2_table)).2 = 150 := by
    simp only [allergenScore, hts, pyTrunc]
    rw [if_neg (by norm_num), hfloor]
  exact ⟨hval, by omega⟩

lemma ratMax_eq_max (a b : ℚ) : ratMax a b = max a b := by
  unfold ratMax
  split
  · exact (max_eq_right (by assumption)).symm
  · exact (max_eq_left (le_of_not_le (by assumption))).symm

lemma fallbackHealth_bounds (tokens : List (List Char)) :
    0 ≤ fallbackHealth tokens ∧ fallbackHealth tokens ≤ 100 := by
  unfold fallbackHealth
  refine ⟨le_max_left _ _, max_le (by norm_num) ?_⟩
  have h : (0 : ℤ) ≤ (fallbackPenalty tokens : ℤ) := Int.ofNat_nonneg _
  omega

lemma tableImpacts_mem_nonneg {tb : RefTable} (himp : ∀ r ∈ tb.rows, 0 ≤ r.impact)
    {tokens : List (List Char)} {x : ℚ} (hx : x ∈ tableImpacts tb tokens) : 0 ≤ x := by
  unfold tableImpacts at hx
  rw [List.mem_flatMap] at hx
  obtain ⟨t, _, hx⟩ := hx
  rw [List.mem_map] at hx
  obtain ⟨r, hr, rfl⟩ := hx
  exact himp r (List.mem_of_mem_filter hr)

lemma tableScore_nonneg {tb : RefTable} {tokens : List (List Char)} {q : ℚ}
    (hq : tableScore tb tokens = some q) : 0 ≤ q := by
  unfold tableScore at hq
  by_cases h1 : tb.hasImpact
  · simp only [h1, if_true] at hq
    by_cases h2 : tableImpacts tb tokens = []
    · simp [h2] at hq
    · simp only [h2, if_neg, if_false] at hq
      have hq' : ratMax 0 (100 - (tableImpacts tb tokens).sum) = q := by
        simpa using hq
      rw [← hq', ratMax_eq_max]
      exact le_max_left _ _
  · simp [h1] at hq

lemma tableScore_bounds {tb : RefTable} (himp : ∀ r ∈ tb.rows, 0 ≤ r.impact)
    {tokens : List (List Char)} {q : ℚ} (hq : tableScore tb tokens = some q) :
    0 ≤ q ∧ q ≤ 100 := by
  unfold tableScore at hq
  by_cases h1 : tb.hasImpact
  · simp only [h1, if_true] at hq
    by_cases h2 : tableImpacts tb tokens = []
    · simp [h2] at hq
    · simp only [h2, if_neg, if_false] at hq
      have hq' : max 0 (100 - (tableImpacts tb tokens).sum) = q := by
        rw [← ratMax_eq_max]
        simpa using hq
      have hsum : 0 ≤ (tableImpacts tb tokens).sum :=
        List.sum_nonneg (fun x hx => tableImpacts_mem_nonneg himp hx)
      constructor
      · rw [← hq']; exact le_max_left _ _
      · rw [← hq']; exact max_le (by norm_num) (by linarith)
  · simp [h1] at hq

/-- C2 (amended): the health score in the record is an integer that is
always nonnegative — for every token list and every reference table — and
it lies in [0, 100] whenever every impact weight of the reference table is
nonnegative (in particular whenever the table is absent, lacks an impact
column, or matches nothing, where the fallback penalty rule applies).
A negative impact weight can push it above 100. -/
theorem health_score_in_range (tokens : List (List Char)) (table : Option RefTable) :
    0 ≤ (allergenScore tokens table).2
    ∧ ((∀ tb, table = some tb → ∀ r ∈ tb.rows, 0 ≤ r.impact) →
        (allergenScore tokens table).2 ≤ 100) := by
  cases table with
  | none =>
    have hb := fallbackHealth_bounds tokens
    exact ⟨by simpa [allergenScore] using hb.1,
      fun _ => by simpa [allergenScore] using hb.2⟩
  | some tb =>
    cases hts : tableScore tb tokens with
    | none =>
      have hb := fallbackHealth_bounds tokens
      exact ⟨by simpa [allergenScore, hts] using hb.1,
        fun _ => by simpa [allergenScore, hts] using hb.2⟩
    | some q =>
      have hq0 : 0 ≤ q := tableScore_nonneg hts
      have hnn : ¬ q < 0 := not_lt.mpr hq0
      constructor
      · simp only [allergenScore, hts, pyTrunc, hnn, if_false]
        exact Int.floor_nonneg.mpr hq0
      · intro himp
        have hq := tableScore_bounds (himp tb rfl) hts
        have h100 : ((100 : ℤ) : ℚ) = (100 : ℚ) := by norm_num
        simp only [allergenScore, hts, pyTrunc, hnn, if_false]
        calc ⌊q⌋ ≤ ⌊((100 : ℤ) : ℚ)⌋ := Int.floor_le_floor (by rw [h100]; exact hq.2)
          _ = 100 := Int.floor_intCast 100

/-- C2 witness: both conjuncts at a concrete input, the upper-bound
hypothesis discharged with the table absent. -/
theorem health_score_in_range_witness :
    0 ≤ (allergenScore ["sugar".toList] none).2 ∧
      (allergenScore ["sugar".toList] none).2 ≤ 100 :=
  ⟨(health_score_in_range ["sugar".toList] none).1,
   (health_score_in_range ["sugar".toList] none).2 (fun _ h => by cases h)⟩

/-! ### Claim C10 — empty OCR text -/

/-- C10: on empty OCR text the pipeline returns a success record with empty
ingredients text, no tokens, no allergens, and health score exactly 100,
whether or not the reference table is present. -/
theorem empty_ocr_trivial_record (table : Option RefTable) :
    predictFromOcr [] table =
      { ok := true, ocr_text := [], ingredients_text := [], tokens := [],
        allergens := [], health_score := 100 } := by
  cases table with
  | none => rfl
  | some tb =>
    obtain ⟨rows, hi⟩ := tb
    cases hi <;> rfl

/-! ### Claim C8 — allergens sorted, deduplicated, order-invariant -/

lemma sortedDedupCL_sorted (l : List (List Char)) :
    (sortedDedupCL l).Sorted (· ≤ ·) :=
  List.sorted_insertionSort _ _

lemma sortedDedupCL_nodup (l : List (List Char)) : (sortedDedupCL l).Nodup :=
  (List.perm_insertionSort _ _).nodup_iff.mpr l.nodup_dedup

lemma sortedDedupCL_eq_of_perm {l l' : List (List Char)} (h : l.Perm l') :
    sortedDedupCL l = sortedDedupCL l' := by
  refine List.eq_of_perm_of_sorted ?_ (sortedDedupCL_sorted l) (sortedDedupCL_sorted l')
  exact (List.perm_insertionSort _ _).trans (h.dedup.trans (List.perm_insertionSort _ _).symm)

lemma allergenScore_fst_perm {toks toks' : List (List Char)} (table : Option RefTable)
    (h : toks.Perm toks') :
    (allergenScore toks table).1.Perm (allergenScore toks' table).1 := by
  have hfb : (fallbackAllergens toks).Perm (fallbackAllergens toks') :=
    h.flatMap_right _
  cases table with
  | none => simpa [allergenScore] using hfb
  | some tb =>
    have hta : (tableAllergens tb toks).Perm (tableAllergens tb toks') :=
      h.flatMap_right _
    by_cases hnil : tableAllergens tb toks = []
    · have hnil' : tableAllergens tb toks' = [] := by
        rw [hnil] at hta
        exact (hta.symm).eq_nil
      simpa [allergenScore, hnil, hnil'] using hfb
    · have hnil' : tableAllergens tb toks' ≠ [] := by
        intro hc
        rw [hc] at hta
        exact hnil hta.eq_nil
      simpa [allergenScore, hnil, hnil'] using hta

/-- C8: the allergens list of the response record is sorted in the
lexicographic order and duplicate-free, and the (sorted, deduplicated)
allergen output of the scoring stage is unchanged under any permutation of
the input token list. -/
theorem allergens_sorted_nodup_perm_invariant (ocr : List Char)
    (toks toks' : List (List Char)) (table : Option RefTable)
    (hperm : toks.Perm toks') :
    ((predictFromOcr ocr table).allergens.Sorted (· ≤ ·)
      ∧ (predictFromOcr ocr table).allergens.Nodup)
    ∧ sortedDedupCL (allergenScore toks table).1
        = sortedDedupCL (allergenScore toks' table).1 := by
  refine ⟨⟨?_, ?_⟩, sortedDedupCL_eq_of_perm (allergenScore_fst_perm table hperm)⟩
  · simpa [predictFromOcr] using sortedDedupCL_sorted (allergenScore (tokensOf (extractIngredients ocr)) table).1
  · simpa [predictFromOcr] using sortedDedupCL_nodup (allergenScore (tokensOf (extractIngredients ocr)) table).1

/-- C8 witness: permutation invariance at a concrete pair of token lists. -/
theorem allergens_perm_invariant_witness :
    sortedDedupCL (allergenScore ["sugar".toList, "skim milk".toList] none).1
      = sortedDedupCL (allergenScore ["skim milk".toList, "sugar".toList] none).1 :=
  (allergens_sorted_nodup_perm_invariant [] ["sugar".toList, "skim milk".toList]
    ["skim milk".toList, "sugar".toList] none (by decide)).2

/-! ### Claim C9 — tokenization: split on runs, trim, drop empties, cap -/

/-- Maximal non-separator segments of the text, in source order; `cur` is
the current segment reversed.  This follows the spec's words for
tokenization: split on runs of separator characters, keeping the
in-between pieces in order. -/
def groupsAux (sep : Char → Bool) : List Char → List Char → List (List Char)
  | [], cur => if cur = [] then [] else [cur.reverse]
  | c :: rest, cur =>
    if sep c then
      if cur = [] then groupsAux sep rest []
      else cur.reverse :: groupsAux sep rest []
    else groupsAux sep rest (c :: cur)

/-- The maximal runs of non-separator characters of `l`, in order. -/
def sepGroups (sep : Char → Bool) (l : List Char) : List (List Char) :=
  groupsAux sep l []

/-- The token list as the spec describes it: split the text on runs of
comma/semicolon/newline, trim whitespace on each piece, drop empty pieces,
preserving source order. -/
def specTokens (text : List Char) : List (List Char) :=
  ((sepGroups isTokSep text).map stripCL).filter (fun t => t ≠ [])

lemma reSplit_eq_groups (sep : Char → Bool) (l : List Char) :
    (∀ cur, ((reSplitRuns sep l false cur).map stripCL).filter (fun t => t ≠ [])
          = ((groupsAux sep l cur).map stripCL).filter (fun t => t ≠ []))
    ∧ ((reSplitRuns sep l true []).map stripCL).filter (fun t => t ≠ [])
        = ((groupsAux sep l []).map stripCL).filter (fun t => t ≠ []) := by
  induction l with
  | nil =>
    constructor
    · intro cur
      by_cases hc : cur = [] <;>
        simp [reSplitRuns, groupsAux, hc, stripCL]
    · simp [reSplitRuns, groupsAux, stripCL]
  | cons c rest ih =>
    have ihA := ih.1
    have ihB := ih.2
    constructor
    · intro cur
      by_cases hs : sep c
      · by_cases hc : cur = []
        · subst hc
          simpa [reSplitRuns, groupsAux, hs, stripCL] using ihB
        · simp only [reSplitRuns, groupsAux, hs, hc, if_true, if_false,
            Bool.false_eq_true, List.map_cons, List.filter_cons, ite_not]
          rw [show ((reSplitRuns sep rest true []).map stripCL).filter (fun t => t ≠ [])
              = ((groupsAux sep rest []).map stripCL).filter (fun t => t ≠ []) from ihB]
      · simpa [reSplitRuns, groupsAux, hs] using ihA (c :: cur)
    · by_cases hs : sep c
      · simpa [reSplitRuns, groupsAux, hs] using ihB
      · simpa [reSplitRuns, groupsAux, hs] using ihA [c]

lemma tokensOf_eq_specTokens (text : List Char) : tokensOf text = specTokens text := by
  have h := (reSplit_eq_groups isTokSep text).1 []
  simpa [tokensOf, pySplitRuns, specTokens, sepGroups] using h

/-- C9: the token list is exactly the maximal runs of non-separator
characters (separators: comma, semicolon, newline) of the ingredients
text, each trimmed of whitespace, with empty pieces dropped, in source
order; the record exposes at most the first 200 of them. -/
theorem tokens_split_trim_capped (text ocr : List Char) (table : Option RefTable) :
    tokensOf text = specTokens text
    ∧ (predictFromOcr ocr table).tokens = (specTokens (extractIngredients ocr)).take 200
    ∧ (predictFromOcr ocr table).tokens.length ≤ 200 := by
  refine ⟨tokensOf_eq_specTokens text, ?_, ?_⟩
  · simp [predictFromOcr, tokensOf_eq_specTokens]
  · simp only [predictFromOcr]
    exact List.length_take_le _ _

/-! ### Claim C4 — terminator truncation rule -/

/-- Earliest-occurrence terminator rule as claim C4 states it: the minimum
find position over all terminators occurring in the snippet. -/
def earliestStopIdx (s : List Char) : Option Nat :=
  (stop_tokens.filterMap (fun p => findSub p s)).min?

/-- Truncation at the earliest (by position) terminator, per claim C4. -/
def truncFromEarliest (ocr : List Char) (i : Nat) : List Char :=
  let snippet := ocr.drop i
  let r :=
    match earliestStopIdx (lowerCL snippet) with
    | none => snippet
    | some si => snippet.take si
  if r = [] then ocr else r

/-- The extraction step with C4's earliest-position terminator rule. -/
def extractIngredientsEarliest (ocr : List Char) : List Char :=
  match findFirstIdx markers (lowerCL ocr) with
  | none => ocr
  | some idx => truncFromEarliest ocr idx

/-- The OCR text of the C4 counterexample: a double newline occurs before
"nutritional", yet the code truncates at "nutritional" because the
terminators are searched in list order. -/
def c4_text : List Char := "ingredients: a\n\nb nutritional".toList

/-- C4 counterexample: the code keeps the text up to "nutritional"
(the first terminator in list order), not up to the earlier double
newline that the earliest-by-position rule would pick. -/
theorem c4_truncation_not_earliest :
    extractIngredients c4_text = "ingredients: a\n\nb ".toList
    ∧ extractIngredientsEarliest c4_text = "ingredients: a".toList
    ∧ extractIngredients c4_text ≠ extractIngredientsEarliest c4_text := by
  decide

/-- First-in-list-order terminator rule as the amended claim states it:
each terminator is looked up in the lowered snippet, and the first one in
the fixed order ("nutritional", "nutrition", double newline, "typical
values") that occurs anywhere decides the truncation position. -/
def firstListOrderStop (s : List Char) : Option Nat :=
  ((stop_tokens.map (fun p => findSub p s)).filter Option.isSome).head?.join

/-- Truncation at the first-in-list-order terminator. -/
def truncFromListOrder (ocr : List Char) (i : Nat) : List Char :=
  let snippet := ocr.drop i
  let r :=
    match firstListOrderStop (lowerCL snippet) with
    | none => snippet
    | some si => snippet.take si
  if r = [] then ocr else r

/-- The extraction step with the amended terminator rule. -/
def extractIngredientsListOrder (ocr : List Char) : List Char :=
  match findFirstIdx markers (lowerCL ocr) with
  | none => ocr
  | some idx => truncFromListOrder ocr idx

lemma findFirstIdx_eq_firstSome (pats : List (List Char)) (s : List Char) :
    findFirstIdx pats s
      = ((pats.map (fun p => findSub p s)).filter Option.isSome).head?.join := by
  induction pats with
  | nil => simp [findFirstIdx]
  | cons p ps ih =>
    cases h : findSub p s with
    | none => simp [findFirstIdx, h, ih]
    | some i => simp [findFirstIdx, h]

/-- C4 (amended): the ingredients snippet is truncated at the find position
of the first terminator in the fixed search order ("nutritional",
"nutrition", double newline, "typical values") that occurs anywhere in the
snippet; if none occurs, the snippet extends to the end of the text. -/
theorem c4_truncation_in_list_order (ocr : List Char) :
    extractIngredients ocr = extractIngredientsListOrder ocr := by
  unfold extractIngredients extractIngredientsListOrder truncFrom truncFromListOrder firstListOrderStop
  simp only [← findFirstIdx_eq_firstSome]

/-! ### Claim C5 — marker priority order -/

/-- The marker phrases in the priority order claim C5 states:
"ingredients as served" first. -/
def markersSpecC5 : List (List Char) :=
  ["ingredients as served".toList, "ingredients".toList, "ingredient".toList]

/-- The extraction step with C5's marker priority order. -/
def extractIngredientsSpecC5 (ocr : List Char) : List Char :=
  match findFirstIdx markersSpecC5 (lowerCL ocr) with
  | none => ocr
  | some idx => truncFrom ocr idx

/-- The OCR text of the C5 counterexample: "ingredients" occurs (inside
"ingredientsx") before the "ingredients as served" phrase. -/
def c5_text : List Char := "ingredientsx ingredients as served: milk".toList

/-- C5 counterexample: the code searches "ingredients" first and starts the
snippet at offset 0, while the claimed priority order would start it at the
"ingredients as served" phrase at offset 13. -/
theorem c5_marker_order_differs :
    extractIngredients c5_text = c5_text
    ∧ extractIngredientsSpecC5 c5_text = "ingredients as served: milk".toList
    ∧ extractIngredients c5_text ≠ extractIngredientsSpecC5 c5_text := by
  decide

lemma matchesAt_of_append {p q s : List Char}
    (h : matchesAt (p ++ q) s = true) : matchesAt p s = true := by
  induction p generalizing s with
  | nil => rfl
  | cons a ps ih =>
    cases s with
    | nil => simp [matchesAt] at h
    | cons c cs =>
      simp only [List.cons_append, matchesAt, Bool.and_eq_true] at h ⊢
      exact ⟨h.1, ih h.2⟩

lemma findSub_append_none {p q s : List Char}
    (h : findSub p s = none) : findSub (p ++ q) s = none := by
  induction s with
  | nil =>
    cases p with
    | nil => simp [findSub, matchesAt] at h
    | cons a ps => simp [findSub, matchesAt]
  | cons c cs ih =>
    rw [findSub] at h
    by_cases hm : matchesAt p (c :: cs) = true
    · simp [hm] at h
    · rw [Bool.not_eq_true] at hm
      rw [hm] at h
      simp only [if_false, Bool.false_eq_true] at h
      have hnone : findSub p cs = none := by
        cases hfs : findSub p cs with
        | none => rfl
        | some v => rw [hfs] at h; simp at h
      have hm' : matchesAt (p ++ q) (c :: cs) = false := by
        cases hq : matchesAt (p ++ q) (c :: cs) with
        | false => rfl
        | true => rw [matchesAt_of_append hq] at hm; cases hm
      rw [findSub, hm']
      simp [ih hnone]

/-- C5 (amended): the marker phrases are searched in the order the code
lists them — "ingredients", then "ingredients as served", then
"ingredient" — with the first marker found winning and the snippet
starting at its offset in the lowered text.  Since every occurrence of
"ingredients as served" begins with "ingredients", the effective priority
is: first occurrence of "ingredients" if any, else first occurrence of
"ingredient", else the whole text. -/
theorem c5_marker_priority (ocr : List Char) :
    (∀ i, findSub "ingredients".toList (lowerCL ocr) = some i →
        extractIngredients ocr = truncFrom ocr i)
    ∧ (findSub "ingredients".toList (lowerCL ocr) = none →
        ∀ j, findSub "ingredient".toList (lowerCL ocr) = some j →
          extractIngredients ocr = truncFrom ocr j)
    ∧ (findSub "ingredient".toList (lowerCL ocr) = none →
        extractIngredients ocr = ocr) := by
  refine ⟨?_, ?_, ?_⟩
  · intro i hi
    simp only [extractIngredients, markers, findFirstIdx, hi]
  · intro h1 j hj
    have hsplit : "ingredients as served".toList
        = "ingredients".toList ++ " as served".toList := by decide
    have h2 : findSub "ingredients as served".toList (lowerCL ocr) = none := by
      rw [hsplit]; exact findSub_append_none h1
    simp only [extractIngredients, markers, findFirstIdx, h1, h2, hj]
  · intro h3
    have hs1 : "ingredients".toList = "ingredient".toList ++ ['s'] := by decide
    have hs2 : "ingredients as served".toList
        = "ingredient".toList ++ "s as served".toList := by decide
    have h1 : findSub "ingredients".toList (lowerCL ocr) = none := by
      rw [hs1]; exact findSub_append_none h3
    have h2 : findSub "ingredients as served".toList (lowerCL ocr) = none := by
      rw [hs2]; exact findSub_append_none h3
    simp only [extractIngredients, markers, findFirstIdx, h1, h2, h3]

/-- C5 witness: the snippet starts at the first occurrence of
"ingredients" on a concrete text. -/
theorem c5_marker_priority_witness :
    extractIngredients "xx ingredients: a".toList
      = truncFrom "xx ingredients: a".toList 3 :=
  (c5_marker_priority "xx ingredients: a".toList).1 3 (by decide)

/-! ### Claims C3 and C7 — the best-of-N OCR selection loop of `test_ocr` -/

/-- Result of one OCR engine invocation: recognized text, or an engine
failure (the exception raised by the recognition engine). -/
abbrev OcrOutcome := Except Unit (List Char)

/-- An OCR oracle: variant name and page-segmentation-mode configuration
to outcome.  The engine is an external collaborator, passed as a
function. -/
abbrev OcrFn := String → String → OcrOutcome

/-- The try/except around `ocr_image_cv` in `main`: an engine failure is
caught and replaced by the empty text. -/
def runText (ocr : OcrFn) (v psm : String) : List Char :=
  match ocr v psm with
  | Except.ok t => t
  | Except.error _ => []

/-- The scoring heuristic `score_text`: empty text scores zero, otherwise
the number of whitespace-separated words longer than one character. -/
def score_text (t : List Char) : ℤ :=
  if t = [] then 0
  else ((sepGroups pyIsSpace t).filter (fun w => 1 < w.length)).length

/-- The three page-segmentation modes tried by `main`. -/
def psms : List String := ["--psm 6", "--psm 3", "--psm 11"]

/-- One step of the inner loop of `main`: keep the better of the running
best and the candidate mode's (score, text). -/
def ocrStep (ocr : OcrFn) (v : String) (best : ℤ × List Char) (psm : String) :
    ℤ × List Char :=
  let txt := runText ocr v psm
  let sc := score_text txt
  if best.1 < sc then (sc, txt) else best

/-- The inner loop of `main`: best (score, text) over the modes, starting
from score -1 with the empty text. -/
def bestForVariant (ocr : OcrFn) (v : String) : ℤ × List Char :=
  psms.foldl (ocrStep ocr v) (-1, [])

/-- The outer loop of `main`: one best result per variant, in order. -/
def runAll (ocr : OcrFn) (variants : List String) :
    List (String × ℤ × List Char) :=
  variants.map (fun v => (v, bestForVariant ocr v))

/-- Point update of an OCR oracle at one (variant, mode) combination. -/
def overrideAt (ocr : OcrFn) (v0 m0 : String) (r : OcrOutcome) : OcrFn :=
  fun v m => if v = v0 ∧ m = m0 then r else ocr v m

/-- C3: an engine failure at one (variant, mode) combination is absorbed:
the batch result is identical to the one obtained when that combination
returns empty text; the failing combination itself contributes empty text
with score zero; and every variant still produces a result. -/
theorem ocr_failure_recovered (ocr : OcrFn) (variants : List String)
    (v0 m0 : String) :
    runAll (overrideAt ocr v0 m0 (Except.error ())) variants
        = runAll (overrideAt ocr v0 m0 (Except.ok [])) variants
    ∧ runText (overrideAt ocr v0 m0 (Except.error ())) v0 m0 = []
    ∧ score_text (runText (overrideAt ocr v0 m0 (Except.error ())) v0 m0) = 0
    ∧ (runAll (overrideAt ocr v0 m0 (Except.error ())) variants).length
        = variants.length := by
  have hrt : runText (overrideAt ocr v0 m0 (Except.error ()))
      = runText (overrideAt ocr v0 m0 (Except.ok [])) := by
    funext v m
    by_cases h : v = v0 ∧ m = m0 <;> simp [runText, overrideAt, h]
  have hstep : ocrStep (overrideAt ocr v0 m0 (Except.error ()))
      = ocrStep (overrideAt ocr v0 m0 (Except.ok [])) := by
    funext v best psm
    simp only [ocrStep]
    rw [hrt]
  refine ⟨?_, ?_, ?_, ?_⟩
  · simp [runAll, bestForVariant, hstep]
  · simp [runText, overrideAt]
  · simp [runText, overrideAt, score_text]
  · simp [runAll]

/-- A scored OCR result as collected by `main`: variant name, score, text. -/
abbrev ResT := String × ℤ × List Char

/-- Descending comparison on the score component, modelling
`sorted(results, key=lambda x: x[1], reverse=True)`. -/
def resGe (a b : ResT) : Prop := b.2.1 ≤ a.2.1

instance : DecidableRel resGe :=
  fun a b => inferInstanceAs (Decidable (b.2.1 ≤ a.2.1))

instance : IsTotal ResT resGe :=
  ⟨fun a b => le_total b.2.1 a.2.1⟩

instance : IsTrans ResT resGe :=
  ⟨fun _ _ _ hab hbc => le_trans hbc hab⟩

/-- The final selection of `main`: sort the per-variant results descending
by score and take the head, if any. -/
def selectBest (results : List ResT) : Option ResT :=
  (List.insertionSort resGe results).head?

lemma ocrStep_fst_le (ocr : OcrFn) (v : String) (best : ℤ × List Char)
    (psm : String) : best.1 ≤ (ocrStep ocr v best psm).1 := by
  unfold ocrStep
  dsimp only
  split
  · exact le_of_lt (by assumption)
  · exact le_refl _

lemma ocrStep_score_le (ocr : OcrFn) (v : String) (best : ℤ × List Char)
    (psm : String) :
    score_text (runText ocr v psm) ≤ (ocrStep ocr v best psm).1 := by
  unfold ocrStep
  dsimp only
  split
  · exact le_refl _
  · exact le_of_not_lt (by assumption)

lemma foldl_ocrStep_fst_mono (ocr : OcrFn) (v : String) (l : List String)
    (init : ℤ × List Char) : init.1 ≤ (l.foldl (ocrStep ocr v) init).1 := by
  induction l generalizing init with
  | nil => exact le_refl _
  | cons p ps ih =>
    exact le_trans (ocrStep_fst_le ocr v init p) (ih (ocrStep ocr v init p))

lemma foldl_ocrStep_score_le (ocr : OcrFn) (v : String) (l : List String)
    (init : ℤ × List Char) (psm : String) (h : psm ∈ l) :
    score_text (runText ocr v psm) ≤ (l.foldl (ocrStep ocr v) init).1 := by
  induction l generalizing init with
  | nil => cases h
  | cons p ps ih =>
    rcases List.mem_cons.mp h with h1 | h2
    · subst h1
      exact le_trans (ocrStep_score_le ocr v init psm)
        (foldl_ocrStep_fst_mono ocr v ps (ocrStep ocr v init psm))
    · exact ih (ocrStep ocr v init p) h2

lemma bestForVariant_ge_psm6 (ocr : OcrFn) (v : String) :
    score_text (runText ocr v "--psm 6") ≤ (bestForVariant ocr v).1 :=
  foldl_ocrStep_score_le ocr v psms (-1, []) "--psm 6" (by simp [psms])

/-- C7: the result selected over all (variant, mode) combinations scores at
least as high as the default single-pipeline path — the adaptive-threshold
variant under the "--psm 6" segmentation mode — run alone on the same
image. -/
theorem selector_ge_default (ocr : OcrFn) (variants : List String)
    (hmem : "adaptive_thresh" ∈ variants) (best : ResT)
    (hsel : selectBest (runAll ocr variants) = some best) :
    score_text (runText ocr "adaptive_thresh" "--psm 6") ≤ best.2.1 := by
  have helem : ("adaptive_thresh", bestForVariant ocr "adaptive_thresh")
      ∈ runAll ocr variants :=
    List.mem_map_of_mem _ hmem
  have hmem2 : ("adaptive_thresh", bestForVariant ocr "adaptive_thresh")
      ∈ List.insertionSort resGe (runAll ocr variants) :=
    ((List.perm_insertionSort resGe (runAll ocr variants)).mem_iff).mpr helem
  have hsorted := List.sorted_insertionSort resGe (runAll ocr variants)
  unfold selectBest at hsel
  cases hlist : List.insertionSort resGe (runAll ocr variants) with
  | nil => rw [hlist] at hsel; cases hsel
  | cons b rest =>
    rw [hlist] at hsel
    have hb : b = best := by
      simpa using hsel
    subst hb
    rw [hlist] at hmem2 hsorted
    have hle : (bestForVariant ocr "adaptive_thresh").1 ≤ b.2.1 := by
      rcases List.mem_cons.mp hmem2 with heq | hrest
      · rw [← heq]
      · exact List.rel_of_sorted_cons hsorted _ hrest
    exact le_trans (bestForVariant_ge_psm6 ocr "adaptive_thresh") hle

/-- The concrete OCR oracle of the C7 witness. -/
def wOcr : OcrFn := fun _ _ => Except.ok "two words".toList

/-- C7 witness: at a concrete oracle and variant list, the selected result
scores at least the default path's score. -/
theorem selector_ge_default_witness :
    score_text (runText wOcr "adaptive_thresh" "--psm 6")
      ≤ ((("adaptive_thresh", ((2 : ℤ), "two words".toList)) : ResT)).2.1 :=
  selector_ge_default wOcr ["adaptive_thresh"] (by decide)
    ("adaptive_thresh", ((2 : ℤ), "two words".toList)) (by decide)

/-! ### Claim C6 — image loading -/

/-- Failure to decode the uploaded image by either path. -/
inductive DecodeError
  | decodeFailed
deriving DecidableEq

/-- A decoded bitmap: dimensions and channel count. -/
structure Bitmap where
  rows : Nat
  cols : Nat
  channels : Nat
deriving DecidableEq

/-- An image decoded by the image-library fallback path and converted to
RGB (`Image.open(...).convert("RGB")`): three channels by construction. -/
structure RgbImage where
  rows : Nat
  cols : Nat
deriving DecidableEq

/-- Conversion of the RGB fallback decode to the canonical BGR channel
order (`cv2.cvtColor(np.array(img_pil), cv2.COLOR_RGB2BGR)`): the result
keeps the dimensions and has exactly 3 channels. -/
def rgbToBgr (p : RgbImage) : Bitmap :=
  { rows := p.rows, cols := p.cols, channels := 3 }

/-- The image-loading step of `predict` (step 3): try the primary codec
decode (`cv2.imdecode` with the color flag); on `None` fall back to the
image-library decode and convert its channel order; fail when neither
decoder succeeds.  The two decoders are external collaborators and are
passed as oracles over the raw upload bytes. -/
def loadImage (primaryDecode : List Nat → Option Bitmap)
    (libDecode : List Nat → Option RgbImage) (bytes : List Nat) :
    Except DecodeError Bitmap :=
  match primaryDecode bytes with
  | some b => Except.ok b
  | none =>
    match libDecode bytes with
    | some p => Except.ok (rgbToBgr p)
    | none => Except.error DecodeError.decodeFailed

/-- C6: given that the primary decoder honors its color-flag contract
(any bitmap it produces has 3 channels), every input decodable by either
path loads as a bitmap with exactly 3 channels, and input decodable by
neither path fails with a decode error and yields no bitmap. -/
theorem loadImage_three_channels (primaryDecode : List Nat → Option Bitmap)
    (libDecode : List Nat → Option RgbImage)
    (hp : ∀ bs b, primaryDecode bs = some b → b.channels = 3) (bs : List Nat) :
    (((primaryDecode bs).isSome ∨ (libDecode bs).isSome) →
      ∃ b, loadImage primaryDecode libDecode bs = Except.ok b ∧ b.channels = 3)
    ∧ (primaryDecode bs = none → libDecode bs = none →
      loadImage primaryDecode libDecode bs
        = Except.error DecodeError.decodeFailed) := by
  constructor
  · intro hdec
    cases hpb : primaryDecode bs with
    | some b => exact ⟨b, by simp [loadImage, hpb], hp bs b hpb⟩
    | none =>
      cases hlb : libDecode bs with
      | some p => exact ⟨rgbToBgr p, by simp [loadImage, hpb, hlb], rfl⟩
      | none => simp [hpb, hlb] at hdec
  · intro h1 h2
    simp [loadImage, h1, h2]

/-- The concrete primary decoder of the C6 witness. -/
def wPrimary : List Nat → Option Bitmap := fun _ => some ⟨2, 2, 3⟩

/-- The concrete fallback decoder of the C6 witness. -/
def wLib : List Nat → Option RgbImage := fun _ => none

/-- C6 witness: a concrete decodable input loads as a 3-channel bitmap. -/
theorem loadImage_three_channels_witness :
    ∃ b, loadImage wPrimary wLib [0] = Except.ok b ∧ b.channels = 3 :=
  (loadImage_three_channels wPrimary wLib
    (fun _ b h => by
      simp only [wPrimary, Option.some_inj] at h
      rw [← h]) [0]).1 (Or.inl rfl)

end AinutriHealth
